import Mathlib

/-!
# Verification of the Tideland Go Text SML core

This development embeds the SML (Simple Markup Language) core of the
`tideland/go-text` repository — the rune classifier, the recursive-descent
reader (`sml/reader.go`), the builders (`builder.go`), the tag validator and
node model (absent `nodes.go`, modelled from the specification), and the
writer engine (`sml/writer.go`) — and proves properties announced in the
specification.

Conventions of the embedding:
* Go strings are `String` / `List Char`; the input stream of the reader is a
  `List Char` consumed from the front, together with the reader's `index`
  counter (a Go `int`, starting at `-1`, incremented on every `ReadRune` and
  decremented on every `UnreadRune`).
* Go's `bufio.Reader.ReadRune` at end of input returns the error `io.EOF`
  (with `size` never `0` alongside a `nil` error), embedded as `Err.eof`;
  the `rcEOF` rune-class branches of the source are therefore dead code but
  are still present in the embedding where they appear in the source.
* A Go method that both mutates its receiver and returns an `error` is a
  function `σ → ... → σ × Option Err`; a function that only returns a value
  or an error is `... → Except Err ...`.
* The mutually recursive trio `readTagNode` / `readTagChildren` /
  `readBracedContent` is defined with a fuel parameter (`Err.outOfFuel` is a
  modelling artifact); `ReadSML` instantiates the fuel with a bound that is
  never reached, as the fuel-independence lemmas below establish where needed.
-/

namespace SML

/-- The error values that can arise in the embedded SML core.  Each
constructor corresponds to one `failure.New` call of the source (carrying the
formatted arguments), to the propagated `io.EOF` of the underlying reader, or
to a Go runtime panic. -/
inductive Err where
  /-- `io.EOF` returned by `bufio.Reader.ReadRune` at end of input. -/
  | eof
  /-- Modelling artifact: the fuel of the mutual recursion ran out. -/
  | outOfFuel
  /-- "unexpected end of file while reading preliminary" (dead code). -/
  | unexpectedEndPreliminary
  /-- "unexpected end of file while reading a tag" (dead code). -/
  | unexpectedEndTag
  /-- "unexpected end of file while reading children" (dead code). -/
  | unexpectedEndChildren
  /-- "unexpected end of file while reading a tag or raw node" (dead code). -/
  | unexpectedEndBraced
  /-- "unexpected end of file while reading a raw node" (dead code). -/
  | unexpectedEndRaw
  /-- "unexpected end of file while reading a comment node" (dead code). -/
  | unexpectedEndComment
  /-- "unexpected end of file while reading a text node" (dead code). -/
  | unexpectedEndText
  /-- "invalid tag character at position %d". -/
  | invalidTagChar (index : Int)
  /-- "invalid character after opening at index %d". -/
  | invalidAfterOpening (index : Int)
  /-- "invalid character after escaping at index %d". -/
  | invalidAfterEscape (index : Int)
  /-- "building is already done". -/
  | buildingDone
  /-- "no opening tag". -/
  | noOpeningTag
  /-- "no opening tag for text". -/
  | noOpeningTagText
  /-- "no opening tag for raw text". -/
  | noOpeningTagRaw
  /-- "no opening tag for comment". -/
  | noOpeningTagComment
  /-- "building is not yet done". -/
  | notYetDone
  /-- "invalid tag: %q" — the grammar error of the tag validator. -/
  | invalidTag (tag : String)
  /-- "need root processor". -/
  | needRootProcessor
  /-- "plugin '%s' already registered". -/
  | pluginRegistered (tag : String)
  /-- "node has multiple values". -/
  | nodeHasMultipleValues
  /-- "cannot retrieve value" annotation. -/
  | cannotRetrieveValue
  /-- "cannot create new node" annotation. -/
  | cannotCreateNode
  /-- Model of a Go runtime panic (nil-pointer dereference or index out of
  range); reached only on states the source would crash on. -/
  | goPanic
  deriving DecidableEq, Repr

/-- The rune classes of the tokenizer (`reader.go`, `rcText .. rcEOF`). -/
inductive RuneClass where
  | rcText
  | rcSpace
  | rcOpen
  | rcClose
  | rcEscape
  | rcExclamation
  | rcHash
  | rcTag
  | rcEOF
  deriving DecidableEq, Repr

/-- Go's `unicode.IsSpace`: the Latin-1 white space characters together with
the characters of the Unicode `White_Space` property. -/
def goIsSpace (c : Char) : Bool :=
  c = ' ' || c = '\t' || c = '\n' || c.toNat = 11 || c.toNat = 12 ||
  c = '\r' || c.toNat = 0x85 || c.toNat = 0xA0 ||
  c.toNat = 0x1680 || (0x2000 ≤ c.toNat && c.toNat ≤ 0x200A) ||
  c.toNat = 0x2028 || c.toNat = 0x2029 || c.toNat = 0x202F ||
  c.toNat = 0x205F || c.toNat = 0x3000

/-- The classification switch of `mlReader.readRune`.  The `size == 0` case
(`rcEOF`) of the source is unreachable, because `ReadRune` reports end of
input through a non-nil error; the remaining cases are translated in source
order. -/
def classifyRune (r : Char) : RuneClass :=
  if r = '{' then .rcOpen
  else if r = '}' then .rcClose
  else if r = '^' then .rcEscape
  else if r = '!' then .rcExclamation
  else if r = '#' then .rcHash
  else if 'a' ≤ r && r ≤ 'z' then .rcTag
  else if 'A' ≤ r && r ≤ 'Z' then .rcTag
  else if '0' ≤ r && r ≤ '9' then .rcTag
  else if r = '-' || r = ':' then .rcTag
  else if goIsSpace r then .rcSpace
  else .rcText

/-- `mlReader.readRune`: one rune of the reader, its class, the incremented
index and the rest of the input. -/
def readRune (idx : Int) (l : List Char) :
    Except Err (Char × RuneClass × Int × List Char) :=
  match l with
  | [] => .error .eof
  | c :: rest => .ok (c, classifyRune c, idx + 1, rest)

/-- The builder interface (`Builder` of the source): five events, each
mutating the builder state and possibly returning an error. -/
structure Builder (σ : Type) where
  BeginTagNode : σ → String → σ × Option Err
  EndTagNode : σ → σ × Option Err
  TextNode : σ → String → σ × Option Err
  RawNode : σ → String → σ × Option Err
  CommentNode : σ → String → σ × Option Err

/-- `mlReader.readPreliminary`: discard the content before the first opening
brace.  (`readRune` is inlined so that the recursion is structural.) -/
def readPreliminary (idx : Int) : List Char → Except Err (Int × List Char)
  | [] => .error .eof
  | c :: rest =>
    match classifyRune c with
    | .rcOpen => .ok (idx + 1, rest)
    | _ => readPreliminary (idx + 1) rest

/-- The accumulation loop of `mlReader.readTag`, with the bytes buffer made
explicit.  Returns the accumulated tag, the class of the terminating rune,
and the input after it. -/
def readTagAux (idx : Int) (buf : List Char) :
    List Char → Except Err (String × RuneClass × Int × List Char)
  | [] => .error .eof
  | c :: rest =>
    match classifyRune c with
    | .rcTag => readTagAux (idx + 1) (buf ++ [c]) rest
    | .rcSpace => .ok (String.mk buf, .rcSpace, idx + 1, rest)
    | .rcClose => .ok (String.mk buf, .rcClose, idx + 1, rest)
    | _ => .error (.invalidTagChar (idx + 1))

/-- `mlReader.readTag`. -/
def readTag (idx : Int) (l : List Char) :
    Except Err (String × RuneClass × Int × List Char) :=
  readTagAux idx [] l

/-- `mlReader.readTextNode`, with the bytes buffer made explicit.  On an
unescaped brace the rune is pushed back (`index--; UnreadRune`) and the
buffer is delivered to `builder.TextNode`. -/
def readTextNode (b : Builder σ) (bs : σ) (idx : Int) (buf : List Char) :
    List Char → σ × Except Err (Int × List Char)
  | [] => (bs, .error .eof)
  | c :: rest =>
    match classifyRune c with
    | .rcOpen =>
      match b.TextNode bs (String.mk buf) with
      | (bs1, none) => (bs1, .ok (idx, c :: rest))
      | (bs1, some e) => (bs1, .error e)
    | .rcClose =>
      match b.TextNode bs (String.mk buf) with
      | (bs1, none) => (bs1, .ok (idx, c :: rest))
      | (bs1, some e) => (bs1, .error e)
    | .rcEscape =>
      match rest with
      | [] => (bs, .error .eof)
      | c2 :: rest2 =>
        match classifyRune c2 with
        | .rcOpen => readTextNode b bs (idx + 2) (buf ++ [c2]) rest2
        | .rcClose => readTextNode b bs (idx + 2) (buf ++ [c2]) rest2
        | .rcEscape => readTextNode b bs (idx + 2) (buf ++ [c2]) rest2
        | _ => (bs, .error (.invalidAfterEscape (idx + 2)))
    | _ => readTextNode b bs (idx + 1) (buf ++ [c]) rest

/-- `mlReader.readRawNode`, buffer explicit: accumulate verbatim until `!`
followed by the closing brace; a lone `!` is re-appended together with the
rune after it. -/
def readRawNode (b : Builder σ) (bs : σ) (idx : Int) (buf : List Char) :
    List Char → σ × Except Err (Int × List Char)
  | [] => (bs, .error .eof)
  | c :: rest =>
    match classifyRune c with
    | .rcExclamation =>
      match rest with
      | [] => (bs, .error .eof)
      | c2 :: rest2 =>
        match classifyRune c2 with
        | .rcClose =>
          match b.RawNode bs (String.mk buf) with
          | (bs1, none) => (bs1, .ok (idx + 2, rest2))
          | (bs1, some e) => (bs1, .error e)
        | _ => readRawNode b bs (idx + 2) (buf ++ ['!', c2]) rest2
    | _ => readRawNode b bs (idx + 1) (buf ++ [c]) rest

/-- `mlReader.readCommentNode`, buffer explicit: exactly as `readRawNode`
with `#` in place of `!`. -/
def readCommentNode (b : Builder σ) (bs : σ) (idx : Int) (buf : List Char) :
    List Char → σ × Except Err (Int × List Char)
  | [] => (bs, .error .eof)
  | c :: rest =>
    match classifyRune c with
    | .rcHash =>
      match rest with
      | [] => (bs, .error .eof)
      | c2 :: rest2 =>
        match classifyRune c2 with
        | .rcClose =>
          match b.CommentNode bs (String.mk buf) with
          | (bs1, none) => (bs1, .ok (idx + 2, rest2))
          | (bs1, some e) => (bs1, .error e)
        | _ => readCommentNode b bs (idx + 2) (buf ++ ['#', c2]) rest2
    | _ => readCommentNode b bs (idx + 1) (buf ++ [c]) rest

mutual

/-- `mlReader.readTagNode`: read a tag, emit `BeginTagNode`, read the
children unless the tag was terminated by the closing brace, emit
`EndTagNode`. -/
def readTagNode (b : Builder σ) : Nat → σ → Int → List Char →
    σ × Except Err (Int × List Char)
  | 0, bs, _, _ => (bs, .error .outOfFuel)
  | fuel + 1, bs, idx, l =>
    match readTag idx l with
    | .error e => (bs, .error e)
    | .ok (tag, rc, idx1, l1) =>
      match b.BeginTagNode bs tag with
      | (bs1, some e) => (bs1, .error e)
      | (bs1, none) =>
        match
          (if rc = RuneClass.rcClose then (bs1, .ok (idx1, l1))
           else readTagChildren b fuel bs1 idx1 l1) with
        | (bs2, .error e) => (bs2, .error e)
        | (bs2, .ok (idx2, l2)) =>
          match b.EndTagNode bs2 with
          | (bs3, none) => (bs3, .ok (idx2, l2))
          | (bs3, some e) => (bs3, .error e)

/-- `mlReader.readTagChildren`: loop over the children of an open tag node;
a closing brace ends the loop, an opening brace starts a braced construct,
anything else is pushed back and starts a text node. -/
def readTagChildren (b : Builder σ) : Nat → σ → Int → List Char →
    σ × Except Err (Int × List Char)
  | 0, bs, _, _ => (bs, .error .outOfFuel)
  | fuel + 1, bs, idx, l =>
    match l with
    | [] => (bs, .error .eof)
    | c :: rest =>
      match classifyRune c with
      | .rcClose => (bs, .ok (idx + 1, rest))
      | .rcOpen =>
        match readBracedContent b fuel bs (idx + 1) rest with
        | (bs1, .error e) => (bs1, .error e)
        | (bs1, .ok (idx1, l1)) => readTagChildren b fuel bs1 idx1 l1
      | _ =>
        match readTextNode b bs idx [] (c :: rest) with
        | (bs1, .error e) => (bs1, .error e)
        | (bs1, .ok (idx1, l1)) => readTagChildren b fuel bs1 idx1 l1

/-- `mlReader.readBracedContent`: dispatch after an opening brace — a tag
rune is pushed back and starts a nested tag node, `!` starts a raw node, `#`
a comment node, anything else is an error. -/
def readBracedContent (b : Builder σ) : Nat → σ → Int → List Char →
    σ × Except Err (Int × List Char)
  | 0, bs, _, _ => (bs, .error .outOfFuel)
  | fuel + 1, bs, idx, l =>
    match l with
    | [] => (bs, .error .eof)
    | c :: rest =>
      match classifyRune c with
      | .rcTag => readTagNode b fuel bs idx (c :: rest)
      | .rcExclamation => readRawNode b bs (idx + 1) [] rest
      | .rcHash => readCommentNode b bs (idx + 1) [] rest
      | _ => (bs, .error (.invalidAfterOpening (idx + 1)))

end

/-- The canonical fuel used by `ReadSML`: never exhausted, since the trio
makes at most three calls per consumed input rune. -/
def smlFuel (l : List Char) : Nat := 3 * l.length + 3

/-- `ReadSML`: skip the preliminary, then read the root tag node, driving the
passed builder.  The index counter starts at `-1` as in the source. -/
def ReadSML (b : Builder σ) (bs : σ) (l : List Char) :
    σ × Except Err (Int × List Char) :=
  match readPreliminary (-1) l with
  | .error e => (bs, .error e)
  | .ok (idx, l1) => readTagNode b (smlFuel l) bs idx l1

/-- Go's `strings.Split` with a one-character separator: splitting the empty
string yields one empty part, so the result is never empty. -/
def splitOnChar (sep : Char) : List Char → List (List Char)
  | [] => [[]]
  | c :: rest =>
    if c = sep then [] :: splitOnChar sep rest
    else
      match splitOnChar sep rest with
      | h :: t => (c :: h) :: t
      | [] => [[c]]

/-- Modelled from the spec: the tag grammar validator `ValidateTag` of the
absent `nodes.go`, following §4.2 of the specification word by word — split
the raw string on `:`; reject if there are no segments or some segment is
empty; reject any segment whose first or last character is a hyphen; reject
if the very first character of the raw string is not a lowercase letter.  On
success the segments are returned in order; on failure the grammar error
carries the offending raw tag (the error message checked by the tests in the
source is "invalid tag: %q"). -/
def ValidateTag (raw : String) : Except Err (List String) :=
  let parts := (splitOnChar ':' raw.data).map String.mk
  if parts.isEmpty then .error (.invalidTag raw)
  else if parts.any (fun p => p.data.isEmpty) then .error (.invalidTag raw)
  else if parts.any (fun p => p.data.head? = some '-' || p.data.getLast? = some '-')
    then .error (.invalidTag raw)
  else if !(match raw.data.head? with
            | some c => 'a' ≤ c && c ≤ 'z'
            | none => false)
    then .error (.invalidTag raw)
  else .ok parts

/-- Modelled from the spec: the node variants of the document tree model
(§3) of the absent `nodes.go` — a tag node holding its ordered segments and
children, and text, raw and comment leaves. -/
inductive Node where
  | tag (segments : List String) (children : List Node)
  | text (s : String)
  | raw (s : String)
  | comment (s : String)
  deriving Repr

mutual

/-- Decidable equality of nodes (hand-written: `Node` nests `List Node`). -/
def nodeDecEq : (a b : Node) → Decidable (a = b)
  | .tag s c, .tag s' c' =>
    match decEq s s' with
    | isTrue h1 =>
      match nodeListDecEq c c' with
      | isTrue h2 => isTrue (h1 ▸ h2 ▸ rfl)
      | isFalse h2 => isFalse (fun h => by injection h with _ g; exact h2 g)
    | isFalse h1 => isFalse (fun h => by injection h with g _; exact h1 g)
  | .tag _ _, .text _ => isFalse (fun h => Node.noConfusion h)
  | .tag _ _, .raw _ => isFalse (fun h => Node.noConfusion h)
  | .tag _ _, .comment _ => isFalse (fun h => Node.noConfusion h)
  | .text _, .tag _ _ => isFalse (fun h => Node.noConfusion h)
  | .text a, .text b =>
    match decEq a b with
    | isTrue h => isTrue (h ▸ rfl)
    | isFalse h => isFalse (fun g => by injection g with g'; exact h g')
  | .text _, .raw _ => isFalse (fun h => Node.noConfusion h)
  | .text _, .comment _ => isFalse (fun h => Node.noConfusion h)
  | .raw _, .tag _ _ => isFalse (fun h => Node.noConfusion h)
  | .raw _, .text _ => isFalse (fun h => Node.noConfusion h)
  | .raw a, .raw b =>
    match decEq a b with
    | isTrue h => isTrue (h ▸ rfl)
    | isFalse h => isFalse (fun g => by injection g with g'; exact h g')
  | .raw _, .comment _ => isFalse (fun h => Node.noConfusion h)
  | .comment _, .tag _ _ => isFalse (fun h => Node.noConfusion h)
  | .comment _, .text _ => isFalse (fun h => Node.noConfusion h)
  | .comment _, .raw _ => isFalse (fun h => Node.noConfusion h)
  | .comment a, .comment b =>
    match decEq a b with
    | isTrue h => isTrue (h ▸ rfl)
    | isFalse h => isFalse (fun g => by injection g with g'; exact h g')

/-- Decidable equality of node lists. -/
def nodeListDecEq : (a b : List Node) → Decidable (a = b)
  | [], [] => isTrue rfl
  | [], _ :: _ => isFalse (fun h => List.noConfusion h)
  | _ :: _, [] => isFalse (fun h => List.noConfusion h)
  | a :: as, b :: bs =>
    match nodeDecEq a b with
    | isTrue h1 =>
      match nodeListDecEq as bs with
      | isTrue h2 => isTrue (h1 ▸ h2 ▸ rfl)
      | isFalse h2 => isFalse (fun h => by injection h with _ g; exact h2 g)
    | isFalse h1 => isFalse (fun h => by injection h with g _; exact h1 g)

end

instance : DecidableEq Node := nodeDecEq

/-- An open tag frame of the `NodeBuilder` stack: the `tagNode` under
construction (validated segments plus the children collected so far). -/
structure TagFrame where
  segments : List String
  children : List Node
  deriving Repr, DecidableEq

/-- The state of `NodeBuilder`: the stack of open `tagNode`s (the head of
the list is the top of the Go slice, i.e. `stack[len-1]`) and the `done`
flag. -/
structure NodeBuilderState where
  stack : List TagFrame
  done : Bool
  deriving Repr, DecidableEq

/-- `NewNodeBuilder`. -/
def NewNodeBuilder : NodeBuilderState := ⟨[], false⟩

/-- The completed node of a closed frame. -/
def TagFrame.toNode (t : TagFrame) : Node := .tag t.segments t.children

/-- `NodeBuilder.BeginTagNode`: reject when done, validate the tag through
`newTagNode` (which calls `ValidateTag`), push the new frame. -/
def nbBeginTagNode (st : NodeBuilderState) (tag : String) :
    NodeBuilderState × Option Err :=
  if st.done then (st, some .buildingDone)
  else
    match ValidateTag tag with
    | .error e => (st, some e)
    | .ok segs => (⟨⟨segs, []⟩ :: st.stack, st.done⟩, none)

/-- `NodeBuilder.EndTagNode`: reject when done; with an empty stack report
"no opening tag"; a singleton stack marks the building done; otherwise pop
the top frame and append it to the children of the frame below. -/
def nbEndTagNode (st : NodeBuilderState) : NodeBuilderState × Option Err :=
  if st.done then (st, some .buildingDone)
  else
    match st.stack with
    | [] => (st, some .noOpeningTag)
    | [t] => (⟨[t], true⟩, none)
    | t :: parent :: rest =>
      (⟨⟨parent.segments, parent.children ++ [t.toNode]⟩ :: rest, st.done⟩, none)

/-- `NodeBuilder.TextNode`. -/
def nbTextNode (st : NodeBuilderState) (text : String) :
    NodeBuilderState × Option Err :=
  if st.done then (st, some .buildingDone)
  else
    match st.stack with
    | t :: rest => (⟨⟨t.segments, t.children ++ [.text text]⟩ :: rest, st.done⟩, none)
    | [] => (st, some .noOpeningTagText)

/-- `NodeBuilder.RawNode`. -/
def nbRawNode (st : NodeBuilderState) (raw : String) :
    NodeBuilderState × Option Err :=
  if st.done then (st, some .buildingDone)
  else
    match st.stack with
    | t :: rest => (⟨⟨t.segments, t.children ++ [.raw raw]⟩ :: rest, st.done⟩, none)
    | [] => (st, some .noOpeningTagRaw)

/-- `NodeBuilder.CommentNode`. -/
def nbCommentNode (st : NodeBuilderState) (comment : String) :
    NodeBuilderState × Option Err :=
  if st.done then (st, some .buildingDone)
  else
    match st.stack with
    | t :: rest => (⟨⟨t.segments, t.children ++ [.comment comment]⟩ :: rest, st.done⟩, none)
    | [] => (st, some .noOpeningTagComment)

/-- `NodeBuilder.Root`: fails before completion; afterwards returns
`stack[0]` (the bottom of the stack, which is then the only frame). -/
def nbRoot (st : NodeBuilderState) : Except Err Node :=
  if !st.done then .error .notYetDone
  else
    match st.stack.getLast? with
    | some t => .ok t.toNode
    | none => .error .goPanic

/-- The `NodeBuilder` packaged as a `Builder`. -/
def NodeBuilder : Builder NodeBuilderState :=
  ⟨nbBeginTagNode, nbEndTagNode, nbTextNode, nbRawNode, nbCommentNode⟩

/-- Parse a document with a fresh `NodeBuilder` and return the root, as the
tests of the source do (`ReadSML` followed by `builder.Root()`). -/
def parseSML (s : String) : Except Err Node :=
  match ReadSML NodeBuilder NewNodeBuilder s.data with
  | (st, .ok _) => nbRoot st
  | (_, .error e) => .error e

/-! ## The writer engine (`sml/writer.go`) -/

/-- A `WriterProcessor`: the five rendering methods, each producing the
chunk it writes through `ctx.Writef` (or an error).  `SetContext` is the
wiring of the output sink and is implicit in this embedding: the engine
appends every produced chunk to the single output buffer in call order. -/
structure WriterProcessor where
  OpenTag : List String → Except Err String
  CloseTag : List String → Except Err String
  Text : String → Except Err String
  Raw : String → Except Err String
  Comment : String → Except Err String

/-- `WriterContext`: the plugin map (key `""` is the root processor), the
pretty-print flag and the indent unit. -/
structure WriterContext where
  plugins : String → Option WriterProcessor
  prettyPrint : Bool
  indentStr : String

/-- `NewWriterContext`. -/
def NewWriterContext (wp : WriterProcessor) (pretty : Bool) (indentStr : String) :
    WriterContext :=
  ⟨fun k => if k = "" then some wp else none, pretty, indentStr⟩

/-- `WriterContext.Register`: add a processor for a tag key, rejecting a
duplicate registration. -/
def registerPlugin (ctx : WriterContext) (tag : String) (wp : WriterProcessor) :
    Except Err WriterContext :=
  match ctx.plugins tag with
  | some _ => .error (.pluginRegistered tag)
  | none => .ok ⟨fun k => if k = tag then some wp else ctx.plugins k,
                 ctx.prettyPrint, ctx.indentStr⟩

/-- The state of `mlWriter`: the processor stack (head of the list is the
top, `stack[len-1]` of the Go slice), the indent counter and the output
collected so far. -/
structure WState where
  stack : List WriterProcessor
  indent : Int
  out : String

/-- `mlWriter.activatePlugin`: push the processor registered for the key if
there is one, otherwise leave the stack unchanged. -/
def activatePlugin (ctx : WriterContext) (tag : String) (st : WState) : WState :=
  match ctx.plugins tag with
  | some p => ⟨p :: st.stack, st.indent, st.out⟩
  | none => st

/-- `mlWriter.deactivatePlugin`: drop the top of the stack. -/
def deactivatePlugin (st : WState) : WState :=
  ⟨st.stack.tail, st.indent, st.out⟩

/-- `mlWriter.activePlugin`: the top of the stack (`stack[len-1]`; indexing
an empty stack would be a Go panic, hence the `Option`). -/
def activePlugin (st : WState) : Option WriterProcessor :=
  st.stack.head?

/-- `indentStr` repeated `indent` times (the loop of `writeIndent`). -/
def repeatStr (s : String) (n : Int) : String :=
  String.join (List.replicate n.toNat s)

/-- `mlWriter.writeIndent`. -/
def writeIndent (ctx : WriterContext) (isOpen : Bool) (st : WState) : WState :=
  if ctx.prettyPrint then ⟨st.stack, st.indent, st.out ++ repeatStr ctx.indentStr st.indent⟩
  else if isOpen then ⟨st.stack, st.indent, st.out ++ " "⟩
  else st

/-- `mlWriter.writeNewline`. -/
def writeNewline (ctx : WriterContext) (st : WState) : WState :=
  if ctx.prettyPrint then ⟨st.stack, st.indent, st.out ++ "\n"⟩ else st

/-- `mlWriter.OpenTag`: activate a plugin for the first tag segment, write
the indent, emit the open chunk via the active processor, write the newline,
increment the indent.  (`tag[0]` on an empty tag would be a Go panic.) -/
def mlOpenTag (ctx : WriterContext) (tag : List String) (st : WState) :
    Except Err WState :=
  match tag.head? with
  | none => .error .goPanic
  | some t0 =>
    let st1 := activatePlugin ctx t0 st
    let st2 := writeIndent ctx true st1
    match activePlugin st2 with
    | none => .error .goPanic
    | some p =>
      match p.OpenTag tag with
      | .error e => .error e
      | .ok chunk =>
        let st3 : WState := ⟨st2.stack, st2.indent, st2.out ++ chunk⟩
        let st4 := writeNewline ctx st3
        .ok ⟨st4.stack, st4.indent + 1, st4.out⟩

/-- `mlWriter.CloseTag`: decrement the indent, write the indent, emit the
close chunk via the active processor, write the newline, and pop the stack
whenever more than one processor is on it. -/
def mlCloseTag (ctx : WriterContext) (tag : List String) (st : WState) :
    Except Err WState :=
  let st1 : WState := ⟨st.stack, st.indent - 1, st.out⟩
  let st2 := writeIndent ctx false st1
  match activePlugin st2 with
  | none => .error .goPanic
  | some p =>
    match p.CloseTag tag with
    | .error e => .error e
    | .ok chunk =>
      let st3 : WState := ⟨st2.stack, st2.indent, st2.out ++ chunk⟩
      let st4 := writeNewline ctx st3
      if st4.stack.length > 1 then .ok (deactivatePlugin st4) else .ok st4

/-- `mlWriter.Text`. -/
def mlText (ctx : WriterContext) (text : String) (st : WState) :
    Except Err WState :=
  let st1 := writeIndent ctx true st
  match activePlugin st1 with
  | none => .error .goPanic
  | some p =>
    match p.Text text with
    | .error e => .error e
    | .ok chunk => .ok (writeNewline ctx ⟨st1.stack, st1.indent, st1.out ++ chunk⟩)

/-- `mlWriter.Raw`. -/
def mlRaw (ctx : WriterContext) (raw : String) (st : WState) :
    Except Err WState :=
  let st1 := writeIndent ctx true st
  match activePlugin st1 with
  | none => .error .goPanic
  | some p =>
    match p.Raw raw with
    | .error e => .error e
    | .ok chunk => .ok (writeNewline ctx ⟨st1.stack, st1.indent, st1.out ++ chunk⟩)

/-- `mlWriter.Comment`. -/
def mlComment (ctx : WriterContext) (comment : String) (st : WState) :
    Except Err WState :=
  let st1 := writeIndent ctx true st
  match activePlugin st1 with
  | none => .error .goPanic
  | some p =>
    match p.Comment comment with
    | .error e => .error e
    | .ok chunk => .ok (writeNewline ctx ⟨st1.stack, st1.indent, st1.out ++ chunk⟩)

mutual

/-- Modelled from the spec: `Node.ProcessWith` of the absent `nodes.go` —
the pre-order traversal of §4.5: for a tag node emit open, process the
children in order, emit close; leaves emit their single event. -/
def processNode (ctx : WriterContext) : Node → WState → Except Err WState
  | .tag segs cs, st =>
    match mlOpenTag ctx segs st with
    | .error e => .error e
    | .ok st1 =>
      match processChildren ctx cs st1 with
      | .error e => .error e
      | .ok st2 => mlCloseTag ctx segs st2
  | .text s, st => mlText ctx s st
  | .raw s, st => mlRaw ctx s st
  | .comment s, st => mlComment ctx s st

/-- The children loop of the traversal. -/
def processChildren (ctx : WriterContext) : List Node → WState → Except Err WState
  | [], st => .ok st
  | n :: rest, st =>
    match processNode ctx n st with
    | .error e => .error e
    | .ok st1 => processChildren ctx rest st1

end

/-- `WriteSML`: look up the root processor, start with it as the only stack
entry and indent `0`, and process the node.  The result carries the final
writer state; the document written is its `out` field. -/
def WriteSML (node : Node) (ctx : WriterContext) : Except Err WState :=
  match ctx.plugins "" with
  | none => .error .needRootProcessor
  | some wp => processNode ctx node ⟨[wp], 0, ""⟩

/-- The escaping loop of `standardSMLWriter.Text`. -/
def escapeChars : List Char → List Char
  | [] => []
  | c :: rest =>
    (if c = '^' then ['^', '^']
     else if c = '{' then ['^', '{']
     else if c = '}' then ['^', '}']
     else [c]) ++ escapeChars rest

/-- `standardSMLWriter.Text`'s buffer as a function on strings. -/
def escapeText (t : String) : String := String.mk (escapeChars t.data)

/-- `NewStandardSMLWriter`: the Native strategy — `{seg1:seg2` / `}` for
tags, escaped text, `{! ... !}` for raw and `{# ... #}` for comment. -/
def NewStandardSMLWriter : WriterProcessor :=
  ⟨fun tag => .ok ("\x7b" ++ String.intercalate ":" tag),
   fun _ => .ok "\x7d",
   fun t => .ok (escapeText t),
   fun r => .ok ("\x7b! " ++ r ++ " !\x7d"),
   fun c => .ok ("\x7b# " ++ c ++ " #\x7d")⟩

/-- The standard writer context used by the tests: root processor the Native
strategy, no overrides. -/
def stdCtx (pretty : Bool) (indentStr : String) : WriterContext :=
  NewWriterContext NewStandardSMLWriter pretty indentStr

/-- Write a node with the Native strategy and return the produced document. -/
def writeSMLString (node : Node) (pretty : Bool) (indentStr : String) :
    Except Err String :=
  match WriteSML node (stdCtx pretty indentStr) with
  | .ok st => .ok st.out
  | .error e => .error e

/-! ## A recording builder (an arbitrary conforming `Builder` instance) -/

/-- The builder events, reified. -/
inductive BEvent where
  | beginTag (tag : String)
  | endTag
  | textEv (s : String)
  | rawEv (s : String)
  | commentEv (s : String)
  deriving DecidableEq, Repr

/-- A builder that records every event it receives and never fails: it
observes exactly what the reader passes to the `Builder` interface. -/
def RecordingBuilder : Builder (List BEvent) :=
  ⟨fun st t => (st ++ [.beginTag t], none),
   fun st => (st ++ [.endTag], none),
   fun st t => (st ++ [.textEv t], none),
   fun st t => (st ++ [.rawEv t], none),
   fun st t => (st ++ [.commentEv t], none)⟩

/-! ## The key/string-value tree builder (`builder.go`) -/

/-- Go's `strings.TrimSpace`. -/
def trimWs (l : List Char) : List Char :=
  ((l.dropWhile goIsSpace).reverse.dropWhile goIsSpace).reverse

/-- `strings.TrimSpace` on strings. -/
def trimSpace (s : String) : String := String.mk (trimWs s.data)

/-- The operations the `KeyStringValueTreeBuilder` uses from the external
`collections` package (`tideland.dev/go/dsa/collections`, not part of this
repository): creating a tree, creating a path, and reading/writing the value
at a path.  The theorems below hold for every implementation of these
operations, so nothing is assumed about the external package. -/
structure KVTreeOps (τ : Type) where
  newTree : String → τ
  create : τ → List String → τ × Option Err
  value : τ → List String → Except Err String
  setValue : τ → List String → String → τ × Option Err

/-- The state of `KeyStringValueTreeBuilder`: the string stack and the tree
are pointers that start out `nil` (here `none`); the list inside the stack
is bottom-to-top, as delivered by `stack.All()`. -/
structure KSVTBState (τ : Type) where
  stack : Option (List String)
  tree : Option τ
  done : Bool

/-- `NewKeyStringValueTreeBuilder`. -/
def NewKeyStringValueTreeBuilder (τ : Type) : KSVTBState τ := ⟨none, none, false⟩

/-- `KeyStringValueTreeBuilder.BeginTagNode`. -/
def ktBeginTagNode (ops : KVTreeOps τ) (st : KSVTBState τ) (tag : String) :
    KSVTBState τ × Option Err :=
  if st.done then (st, some .buildingDone)
  else
    match st.tree with
    | none => (⟨some [tag], some (ops.newTree tag), st.done⟩, none)
    | some tr =>
      match st.stack with
      | none => (st, some .goPanic)
      | some sk =>
        let sk1 := sk ++ [tag]
        match ops.create tr sk1 with
        | (tr1, none) => (⟨some sk1, some tr1, st.done⟩, none)
        | (tr1, some _) => (⟨some sk1, some tr1, st.done⟩, some .cannotCreateNode)

/-- `KeyStringValueTreeBuilder.EndTagNode`: pop the stack (a `Pop` on the
`nil` stack dereferences a nil pointer) and mark done when it empties. -/
def ktEndTagNode (st : KSVTBState τ) : KSVTBState τ × Option Err :=
  if st.done then (st, some .buildingDone)
  else
    match st.stack with
    | none => (st, some .goPanic)
    | some [] => (st, some .goPanic)
    | some (s :: sk) =>
      let sk1 := (s :: sk).dropLast
      if sk1.isEmpty then (⟨some sk1, st.tree, true⟩, none)
      else (⟨some sk1, st.tree, st.done⟩, none)

/-- `KeyStringValueTreeBuilder.TextNode`: read the value at the current
path (`At` on the `nil` tree dereferences a nil pointer), reject a second
value, trim the text and store it if nonempty. -/
def ktTextNode (ops : KVTreeOps τ) (st : KSVTBState τ) (text : String) :
    KSVTBState τ × Option Err :=
  if st.done then (st, some .buildingDone)
  else
    match st.stack with
    | none => (st, some .goPanic)
    | some sk =>
      match st.tree with
      | none => (st, some .goPanic)
      | some tr =>
        match ops.value tr sk with
        | .error _ => (st, some .cannotRetrieveValue)
        | .ok v =>
          if v ≠ "" then (st, some .nodeHasMultipleValues)
          else
            let text1 := trimSpace text
            if text1 ≠ "" then
              match ops.setValue tr sk text1 with
              | (tr1, none) => (⟨st.stack, some tr1, st.done⟩, none)
              | (tr1, some e) => (⟨st.stack, some tr1, st.done⟩, some e)
            else (st, none)

/-- `KeyStringValueTreeBuilder.CommentNode`: reject after done, otherwise do
nothing. -/
def ktCommentNode (st : KSVTBState τ) : KSVTBState τ × Option Err :=
  if st.done then (st, some .buildingDone)
  else (st, none)

/-- The `KeyStringValueTreeBuilder` packaged as a `Builder` (its `RawNode`
delegates to `TextNode`). -/
def KeyStringValueTreeBuilder (ops : KVTreeOps τ) : Builder (KSVTBState τ) :=
  ⟨ktBeginTagNode ops, fun st => ktEndTagNode st,
   ktTextNode ops, ktTextNode ops, fun st _ => ktCommentNode st⟩

/-! ## Whitespace normalization and well-formedness -/

/-- The maximal runs of non-whitespace characters of a character list. -/
def wsWords : List Char → List (List Char)
  | [] => []
  | c :: rest =>
    if goIsSpace c then wsWords rest
    else
      match rest with
      | [] => [[c]]
      | c2 :: _ =>
        if goIsSpace c2 then [c] :: wsWords rest
        else
          match wsWords rest with
          | w :: ws => (c :: w) :: ws
          | [] => [[c]]

/-- Whitespace collapsing: trim at both ends and replace every inner
whitespace run by a single space. -/
def collapseWs (l : List Char) : List Char :=
  List.intercalate [' '] (wsWords l)

/-- Whitespace collapsing on strings. -/
def collapseStr (s : String) : String := String.mk (collapseWs s.data)

mutual

/-- Whitespace normalization of a tree: collapse text content, trim raw and
comment content, and normalize children lists. -/
def normNode : Node → Node
  | .tag segs cs => .tag segs (normChildren cs [])
  | .text s => .text (collapseStr s)
  | .raw s => .raw (trimSpace s)
  | .comment s => .comment (trimSpace s)

/-- Normalization of a children list, merging adjacent text nodes (joined by
a single space before collapsing) and dropping whitespace-only text nodes;
`pending` accumulates the text collected so far. -/
def normChildren : List Node → List Char → List Node
  | [], pending =>
    match collapseWs pending with
    | [] => []
    | w => [.text (String.mk w)]
  | .text s :: rest, pending => normChildren rest (pending ++ ' ' :: s.data)
  | n :: rest, pending =>
    (match collapseWs pending with
     | [] => []
     | w => [.text (String.mk w)]) ++ normNode n :: normChildren rest []

end

/-- The characters the tokenizer accepts inside a tag, except the colon
separating segments. -/
def tagSegChar (c : Char) : Bool :=
  ('a' ≤ c && c ≤ 'z') || ('A' ≤ c && c ≤ 'Z') || ('0' ≤ c && c ≤ '9') || c = '-'

/-- A valid stored tag segment: nonempty, of tag characters, with no hyphen
at either end. -/
def validSeg (s : String) : Bool :=
  !s.data.isEmpty && s.data.all tagSegChar &&
  s.data.head? ≠ some '-' && s.data.getLast? ≠ some '-'

/-- A valid stored segment list: nonempty, all segments valid, and the first
character of the first segment a lowercase letter. -/
def validTagSegs (segs : List String) : Bool :=
  match segs with
  | [] => false
  | s :: _ =>
    segs.all validSeg &&
    (match s.data with
     | c :: _ => 'a' ≤ c && c ≤ 'z'
     | [] => false)

/-- Does the list contain the two-character sequence `a b`? -/
def hasSub2 (a b : Char) : List Char → Bool
  | [] => false
  | c :: rest =>
    (match rest with
     | c2 :: _ => c = a && c2 = b
     | [] => false) || hasSub2 a b rest

/-- A valid raw/comment buffer for marker `m`: every occurrence of `m`
begins a two-character unit whose second character is not the closing
brace — exactly the buffers the reader's scanning loop can produce, and
exactly the contents it re-reads verbatim. -/
def markUnits (m : Char) : List Char → Bool
  | [] => true
  | c :: rest =>
    if c = m then
      match rest with
      | [] => false
      | c2 :: rest2 => decide (c2 ≠ '}') && markUnits m rest2
    else markUnits m rest

mutual

/-- Well-formedness of a tree for writing: valid tags everywhere, raw and
comment content scanning as complete marker units (so the reader consumes
them verbatim without meeting a premature terminator). -/
def wfNode : Node → Bool
  | .tag segs cs => validTagSegs segs && wfChildren cs
  | .text _ => true
  | .raw s => markUnits '!' s.data
  | .comment s => markUnits '#' s.data

/-- Well-formedness of a children list. -/
def wfChildren : List Node → Bool
  | [] => true
  | n :: rest => wfNode n && wfChildren rest

end

/-! ## Specification-side comparison functions -/

/-- The claim's description of the text-node scanner: accumulate characters
until an unescaped brace (left in the input), decoding `^^`, `^\x7b`, `^\x7d`
and failing on any other character after the escape. -/
def scanTextSpec : List Char → Int → List Char → Except Err (String × Int × List Char)
  | [], _, _ => .error .eof
  | c :: rest, idx, acc =>
    if c = '{' ∨ c = '}' then .ok (String.mk acc, idx, c :: rest)
    else if c = '^' then
      match rest with
      | [] => .error .eof
      | c2 :: rest2 =>
        if c2 = '^' ∨ c2 = '{' ∨ c2 = '}' then scanTextSpec rest2 (idx + 2) (acc ++ [c2])
        else .error (.invalidAfterEscape (idx + 2))
    else scanTextSpec rest (idx + 1) (acc ++ [c])

/-- The tag-character set of the amended claim: lowercase and uppercase
letters, digits, hyphen and colon. -/
def isTagRune (c : Char) : Bool :=
  ('a' ≤ c && c ≤ 'z') || ('A' ≤ c && c ≤ 'Z') || ('0' ≤ c && c ≤ '9') ||
  c = '-' || c = ':'

/-- The special marks of the tokenizer. -/
def isSpecialRune (c : Char) : Bool :=
  c = '{' || c = '}' || c = '^' || c = '!' || c = '#'

/-- The rejection condition exactly as the claim states it: no segments,
an empty segment, a segment starting or ending with a hyphen, or a raw
string whose first character is not a lowercase letter. -/
def tagRejected (raw : String) : Bool :=
  let parts := splitOnChar ':' raw.data
  parts.isEmpty || parts.any (fun p => p.isEmpty) ||
  parts.any (fun p => p.head? = some '-' || p.getLast? = some '-') ||
  !(match raw.data.head? with
    | some c => 'a' ≤ c && c ≤ 'z'
    | none => false)

/-- The produced document of a writer run. -/
def writeOutput (node : Node) (ctx : WriterContext) : Except Err String :=
  match WriteSML node ctx with
  | .ok st => .ok st.out
  | .error e => .error e

mutual

/-- The writer traversal exactly as the claim describes it: entering a tag
node pushes the override registered for its first segment if and only if one
is registered, the close event is emitted via the top of stack, and the
stack is popped if and only if a processor was pushed on entry — so every
event goes through the processor of the nearest enclosing tag with a
registered override (or the root processor). -/
def specProcessNode (ctx : WriterContext) : Node → WState → Except Err WState
  | .tag segs cs, st =>
    match segs.head? with
    | none => .error .goPanic
    | some t0 =>
      let pushed := (ctx.plugins t0).isSome
      match mlOpenTag ctx segs st with
      | .error e => .error e
      | .ok st1 =>
        match specProcessChildren ctx cs st1 with
        | .error e => .error e
        | .ok st2 =>
          let st3 : WState := ⟨st2.stack, st2.indent - 1, st2.out⟩
          let st4 := writeIndent ctx false st3
          match activePlugin st4 with
          | none => .error .goPanic
          | some p =>
            match p.CloseTag segs with
            | .error e => .error e
            | .ok chunk =>
              let st5 : WState := ⟨st4.stack, st4.indent, st4.out ++ chunk⟩
              let st6 := writeNewline ctx st5
              if pushed then .ok (deactivatePlugin st6) else .ok st6
  | .text s, st => mlText ctx s st
  | .raw s, st => mlRaw ctx s st
  | .comment s, st => mlComment ctx s st

/-- The children loop of the claim-side traversal. -/
def specProcessChildren (ctx : WriterContext) : List Node → WState → Except Err WState
  | [], st => .ok st
  | n :: rest, st =>
    match specProcessNode ctx n st with
    | .error e => .error e
    | .ok st1 => specProcessChildren ctx rest st1

end

/-- The claim-side writer run. -/
def specWriteOutput (node : Node) (ctx : WriterContext) : Except Err String :=
  match ctx.plugins "" with
  | none => .error .needRootProcessor
  | some wp =>
    match specProcessNode ctx node ⟨[wp], 0, ""⟩ with
    | .ok st => .ok st.out
    | .error e => .error e

/-- A root processor whose chunks are tagged `R`, to make the dispatching
processor of every event observable in the output. -/
def procR : WriterProcessor :=
  ⟨fun tag => .ok ("R<" ++ String.intercalate ":" tag ++ ">"),
   fun _ => .ok "R</>",
   fun t => .ok ("R:" ++ t),
   fun r => .ok ("Rr:" ++ r),
   fun c => .ok ("Rc:" ++ c)⟩

/-- An override processor whose chunks are tagged `P`. -/
def procP : WriterProcessor :=
  ⟨fun tag => .ok ("P<" ++ String.intercalate ":" tag ++ ">"),
   fun _ => .ok "P</>",
   fun t => .ok ("P:" ++ t),
   fun r => .ok ("Pr:" ++ r),
   fun c => .ok ("Pc:" ++ c)⟩

/-- A context registering `procR` as root processor and `procP` as the
override for tags whose first segment is `li` (compact output). -/
def ctxC3 : WriterContext :=
  ⟨fun k => if k = "" then some procR else if k = "li" then some procP else none,
   false, ""⟩

/-- The input demonstrating the pop bug: inside an overridden `li` tag, a
child without an override (`em`) followed by text. -/
def treeC3 : Node := .tag ["li"] [.tag ["em"] [], .text "b"]

/-! ## Round-trip apparatus: emissions, parsed shapes, and fuel bounds -/

/-- Is every character white space? -/
def allWs (l : List Char) : Bool := l.all goIsSpace

/-- The characters `writeIndent` produces before an opening/content
emission at depth `d`. -/
def wsOpenChars (pretty : Bool) (ind : List Char) (d : Nat) : List Char :=
  if pretty then (List.replicate d ind).flatten else [' ']

/-- The characters `writeNewline` produces. -/
def nlChars (pretty : Bool) : List Char := if pretty then ['\n'] else []

/-- The characters `writeIndent` produces before a close emission at depth
`d`. -/
def closeWChars (pretty : Bool) (ind : List Char) (d : Nat) : List Char :=
  if pretty then (List.replicate d ind).flatten else []

/-- A valid text run: no unescaped brace, every escape followed by one of
the three escapable characters. -/
def textRun : List Char → Bool
  | [] => true
  | c :: rest =>
    if c = '{' ∨ c = '}' then false
    else if c = '^' then
      match rest with
      | [] => false
      | c2 :: rest2 => decide (c2 = '^' ∨ c2 = '{' ∨ c2 = '}') && textRun rest2
    else textRun rest

/-- The decoded content of a text run. -/
def decodeRun : List Char → List Char
  | [] => []
  | c :: rest =>
    if c = '^' then
      match rest with
      | [] => []
      | c2 :: rest2 => c2 :: decodeRun rest2
    else c :: decodeRun rest

/-- The text node a flushed buffer produces (none when empty). -/
def flushText (l : List Char) : List Node :=
  if l.isEmpty then [] else [.text (String.mk l)]

/-- The input of the children loop of a tag written at depth `d`: the
newline after the open chunk, the children emissions at depth `d + 1`, the
close indent, and the closing brace. -/
def tagInner (pretty : Bool) (ind : List Char) (d : Nat) (children : List Char) :
    List Char :=
  nlChars pretty ++ children ++ closeWChars pretty ind d ++ ['}']

mutual

/-- The characters the writer emits for one node at depth `d` (leading
indent-or-space, content chunk, trailing newline). -/
def emitNode (pretty : Bool) (ind : List Char) (d : Nat) : Node → List Char
  | .tag sg cs =>
    wsOpenChars pretty ind d ++ '{' :: (String.intercalate ":" sg).data ++
      tagInner pretty ind d (emitChildren pretty ind (d + 1) cs) ++ nlChars pretty
  | .text s => wsOpenChars pretty ind d ++ escapeChars s.data ++ nlChars pretty
  | .raw s =>
    wsOpenChars pretty ind d ++ '{' :: '!' :: ' ' :: s.data ++ ' ' :: '!' :: '}' ::
      nlChars pretty
  | .comment s =>
    wsOpenChars pretty ind d ++ '{' :: '#' :: ' ' :: s.data ++ ' ' :: '#' :: '}' ::
      nlChars pretty

/-- The concatenated emissions of a children list. -/
def emitChildren (pretty : Bool) (ind : List Char) (d : Nat) : List Node → List Char
  | [] => []
  | c :: cs => emitNode pretty ind d c ++ emitChildren pretty ind d cs

end

/-- The emission of a node without its leading indent (what remains once
the reader has consumed the separating rune before it). -/
def emitCore (pretty : Bool) (ind : List Char) (d : Nat) : Node → List Char
  | .tag sg cs =>
    '{' :: (String.intercalate ":" sg).data ++
      tagInner pretty ind d (emitChildren pretty ind (d + 1) cs) ++ nlChars pretty
  | .text s => escapeChars s.data ++ nlChars pretty
  | .raw s => '{' :: '!' :: ' ' :: s.data ++ ' ' :: '!' :: '}' :: nlChars pretty
  | .comment s => '{' :: '#' :: ' ' :: s.data ++ ' ' :: '#' :: '}' :: nlChars pretty

/-- Colon-joined segments at the character level. -/
def joinSegs : List (List Char) → List Char
  | [] => []
  | [x] => x
  | x :: y :: rest => x ++ ':' :: joinSegs (y :: rest)

mutual

/-- The tree the parser rebuilds from the emission of a node (meaningful
for tag nodes; leaves are untouched). -/
def parsedNode (pretty : Bool) (ind : List Char) (d : Nat) : Node → Node
  | .tag sg cs =>
    .tag sg
      (if pretty then parsedKids pretty ind (d + 1) cs [] (closeWChars pretty ind d)
       else
         match cs with
         | [] => []
         | c1 :: cs' => parsedKidsAtCore pretty ind (d + 1) c1 cs' (closeWChars pretty ind d))
  | n => n
termination_by n => (sizeOf n, 0)
decreasing_by all_goals (simp_wf; simp only [Prod.lex_iff]; omega)

/-- The children the parser rebuilds when the loop stands directly at the
emission core of `c1` (its leading indent already consumed). -/
def parsedKidsAtCore (pretty : Bool) (ind : List Char) (d : Nat) (c1 : Node)
    (cs : List Node) (W : List Char) : List Node :=
  match c1 with
  | .text s => parsedKids pretty ind d cs (escapeChars s.data ++ nlChars pretty) W
  | .tag sg' cs'' =>
    parsedNode pretty ind d (.tag sg' cs'') :: parsedKids pretty ind d cs (nlChars pretty) W
  | .raw s =>
    .raw (String.mk (' ' :: s.data ++ [' '])) :: parsedKids pretty ind d cs (nlChars pretty) W
  | .comment s =>
    .comment (String.mk (' ' :: s.data ++ [' '])) :: parsedKids pretty ind d cs (nlChars pretty) W
termination_by (sizeOf c1 + sizeOf cs + 1, 1)
decreasing_by all_goals (simp_wf; simp only [Prod.lex_iff]; omega)

/-- The children the parser rebuilds from a children-list emission preceded
by a pending (still encoded) text run `u` and followed by the final
whitespace `W` before the closing brace. -/
def parsedKids (pretty : Bool) (ind : List Char) (d : Nat) :
    List Node → List Char → List Char → List Node
  | [], u, W => flushText (decodeRun u ++ W)
  | .text s :: cs, u, W =>
    parsedKids pretty ind d cs
      (u ++ wsOpenChars pretty ind d ++ escapeChars s.data ++ nlChars pretty) W
  | c1 :: cs, u, W =>
    flushText (decodeRun (u ++ wsOpenChars pretty ind d)) ++
      parsedKidsAtCore pretty ind d c1 cs W
termination_by cs _ _ => (sizeOf cs, 2)
decreasing_by all_goals (simp_wf; simp only [Prod.lex_iff]; omega)

end

/-- `NodeBuilder.EndTagNode` seen from outside: closing the frame `t` over
the remaining stack `frs`. -/
def nbAfterEnd (frs : List TagFrame) (t : TagFrame) : NodeBuilderState :=
  match frs with
  | [] => ⟨[t], true⟩
  | fr :: frs' => ⟨⟨fr.segments, fr.children ++ [t.toNode]⟩ :: frs', false⟩

mutual

/-- An upper bound on the fuel the reader trio consumes on the emission of
one node. -/
def fuelNode : Node → Nat
  | .tag _ cs => 2 + fuelKids cs
  | _ => 3

/-- An upper bound on the fuel the children loop consumes on a children
emission. -/
def fuelKids : List Node → Nat
  | [] => 2
  | .tag _ cs' :: cs => 4 + fuelKids cs' + fuelKids cs
  | _ :: cs => 3 + fuelKids cs

end

/-!
## Theorems

First the bridging lemmas between the tokenizer's classification and the
character sets it recognizes, then the claim theorems.
-/

theorem data_mk (l : List Char) : (String.mk l).data = l := rfl

theorem classify_rcOpen_iff {c : Char} : classifyRune c = .rcOpen ↔ c = '{' := by
  unfold classifyRune
  split_ifs <;> simp_all

theorem classify_rcClose_iff {c : Char} : classifyRune c = .rcClose ↔ c = '}' := by
  unfold classifyRune
  split_ifs <;> simp_all

theorem classify_rcEscape_iff {c : Char} : classifyRune c = .rcEscape ↔ c = '^' := by
  unfold classifyRune
  split_ifs <;> simp_all

theorem classify_rcExclamation_iff {c : Char} :
    classifyRune c = .rcExclamation ↔ c = '!' := by
  unfold classifyRune
  split_ifs <;> simp_all

theorem classify_rcHash_iff {c : Char} : classifyRune c = .rcHash ↔ c = '#' := by
  unfold classifyRune
  split_ifs <;> simp_all

theorem classify_rcTag_iff {c : Char} : classifyRune c = .rcTag ↔ isTagRune c = true := by
  unfold classifyRune isTagRune
  split_ifs with h1 h2 h3 h4 h5 h6 h7 h8 h9 h10
  · subst h1; decide
  · subst h2; decide
  · subst h3; decide
  · subst h4; decide
  · subst h5; decide
  all_goals simp only [Bool.or_eq_true, Bool.and_eq_true, decide_eq_true_eq] at *
  · exact iff_of_true trivial (Or.inl (Or.inl (Or.inl (Or.inl h6))))
  · exact iff_of_true trivial (Or.inl (Or.inl (Or.inl (Or.inr h7))))
  · exact iff_of_true trivial (Or.inl (Or.inl (Or.inr h8)))
  · exact iff_of_true trivial (h9.elim (fun h => Or.inl (Or.inr h)) Or.inr)
  · refine iff_of_false (fun h => h) ?_
    rintro ((((hA | hB) | hC) | hD) | hE)
    · exact h6 hA
    · exact h7 hB
    · exact h8 hC
    · exact h9 (Or.inl hD)
    · exact h9 (Or.inr hE)
  · refine iff_of_false (fun h => h) ?_
    rintro ((((hA | hB) | hC) | hD) | hE)
    · exact h6 hA
    · exact h7 hB
    · exact h8 hC
    · exact h9 (Or.inl hD)
    · exact h9 (Or.inr hE)

theorem classify_rcText_iff {c : Char} :
    classifyRune c = .rcText ↔
      (isSpecialRune c = false ∧ goIsSpace c = false ∧ isTagRune c = false) := by
  unfold classifyRune isTagRune isSpecialRune
  split_ifs with h1 h2 h3 h4 h5 h6 h7 h8 h9 h10
  · subst h1; decide
  · subst h2; decide
  · subst h3; decide
  · subst h4; decide
  · subst h5; decide
  all_goals simp only [Bool.or_eq_true, Bool.and_eq_true, Bool.or_eq_false_iff,
    Bool.and_eq_false_iff, decide_eq_true_eq, decide_eq_false_iff_not,
    Bool.eq_false_iff, ne_eq, not_and, not_or] at *
  · refine iff_of_false (fun h => h) ?_
    rintro ⟨-, -, ⟨⟨⟨ta, tA⟩, t0⟩, td⟩, te⟩
    exact ta h6.1 h6.2
  · refine iff_of_false (fun h => h) ?_
    rintro ⟨-, -, ⟨⟨⟨ta, tA⟩, t0⟩, td⟩, te⟩
    exact tA h7.1 h7.2
  · refine iff_of_false (fun h => h) ?_
    rintro ⟨-, -, ⟨⟨⟨ta, tA⟩, t0⟩, td⟩, te⟩
    exact t0 h8.1 h8.2
  · refine iff_of_false (fun h => h) ?_
    rintro ⟨-, -, ⟨⟨⟨ta, tA⟩, t0⟩, td⟩, te⟩
    exact h9.elim td te
  · refine iff_of_false (fun h => h) ?_
    rintro ⟨-, hw, -⟩
    exact hw h10
  · refine iff_of_true trivial ?_
    exact ⟨⟨⟨⟨⟨h1, h2⟩, h3⟩, h4⟩, h5⟩, h10, ⟨⟨⟨h6, h7⟩, h8⟩, h9.1⟩, h9.2⟩

theorem classify_ne_rcEOF {c : Char} : classifyRune c ≠ .rcEOF := by
  unfold classifyRune
  split_ifs <;> simp_all

/-- C1 — counterexample.  The document `{root ab{c}}` is producible by the
grammar; parsing it, writing the tree with the Native strategy, and parsing
the output again yields a text child `"ab "` where the original tree has
`"ab"` (the writer's separating space before `{c` merges into the preceding
text node), so the round-tripped tree is not structurally equal to the
original and text content is not preserved exactly. -/
theorem c1_roundtrip_counterexample :
    parseSML "\x7broot ab\x7bc\x7d\x7d" = .ok (Node.tag ["root"] [.text "ab", .tag ["c"] []]) ∧
    writeOutput (Node.tag ["root"] [.text "ab", .tag ["c"] []]) (stdCtx false "") =
      .ok " \x7broot ab \x7bc\x7d\x7d" ∧
    parseSML " \x7broot ab \x7bc\x7d\x7d" = .ok (Node.tag ["root"] [.text "ab ", .tag ["c"] []]) ∧
    (Node.tag ["root"] [.text "ab ", .tag ["c"] []]) ≠ (Node.tag ["root"] [.text "ab", .tag ["c"] []]) :=
  ⟨rfl, rfl, rfl, by decide⟩

/-- C2 — counterexample.  Calling `CommentNode` on a fresh
`KeyStringValueTreeBuilder` — i.e. before the first `BeginTagNode` — returns
no error at all: the call silently succeeds, contradicting the claim that
every content event before the first `BeginTagNode` returns a protocol
error. -/
theorem c2_protocol_counterexample :
    ktCommentNode (NewKeyStringValueTreeBuilder Unit) =
      (NewKeyStringValueTreeBuilder Unit, none) := rfl

/-- C3 — the pop bug.  With the root processor `R` and the override `P`
registered for `li`, writing `{li {em} b}` emits the text `b` and the close
of `li` through `R` (chunks `R:b` and `R</>`): closing the un-overridden
`em` popped `P` although nothing was pushed when `em` was entered.  The
claim-side traversal (pop iff pushed on entry, so that events go through the
nearest enclosing override) emits them through `P`, producing a different
document. -/
theorem c3_writer_pop_bug :
    writeOutput treeC3 ctxC3 = .ok " P<li> P<em>P</> R:bR</>" ∧
    specWriteOutput treeC3 ctxC3 = .ok " P<li> P<em>P</> P:bP</>" ∧
    (" P<li> P<em>P</> R:bR</>" : String) ≠ " P<li> P<em>P</> P:bP</>" :=
  ⟨rfl, rfl, by decide⟩

/-- C4 — counterexample.  Parsing `{AB}` with a recording builder shows the
reader passing the accumulated tag string `AB` to `BeginTagNode` — and the
parse succeeding — although `AB` violates the tag grammar rules of §4.2
(`ValidateTag` rejects it): the reader validates nothing before calling the
builder. -/
theorem c4_unvalidated_counterexample :
    ReadSML RecordingBuilder [] "\x7bAB\x7d".data =
      ([.beginTag "AB", .endTag], .ok (3, [])) ∧
    ValidateTag "AB" = .error (.invalidTag "AB") :=
  ⟨rfl, rfl⟩

/-- C5 — counterexample.  The classifier assigns the TagChar class to `A`,
which is neither in `a–z`, nor a digit, hyphen or colon — the claim's
exactly-these-characters description requires `A` to be classified as Text. -/
theorem c5_classifier_counterexample :
    classifyRune 'A' = RuneClass.rcTag ∧ RuneClass.rcTag ≠ RuneClass.rcText :=
  ⟨rfl, by decide⟩

/-- C5 — amended.  The rune classifier assigns the TagChar class exactly to
the lowercase letters, the uppercase letters, the digits, hyphen and colon;
and it classifies a character as Text exactly when the character is not one
of the five special marks, not white space, and not a tag character. -/
theorem c5_classifier_amended :
    ∀ c : Char,
      (classifyRune c = RuneClass.rcTag ↔ isTagRune c = true) ∧
      (classifyRune c = RuneClass.rcText ↔
        (isSpecialRune c = false ∧ goIsSpace c = false ∧ isTagRune c = false)) :=
  fun _ => ⟨classify_rcTag_iff, classify_rcText_iff⟩

/-- C8 — counterexample.  Parsing the unterminated `{root` fails with the
propagated end-of-input error of the rune reader (`io.EOF`), which is not
the children-phase syntax error the claim announces (nor does it carry any
phase or position: the `rcEOF` branches of the reader are dead code). -/
theorem c8_unterminated_counterexample :
    (ReadSML NodeBuilder NewNodeBuilder "\x7broot".data).2 = .error .eof ∧
    Err.eof ≠ Err.unexpectedEndChildren :=
  ⟨rfl, by decide⟩

/-- C8 — amended.  Parsing `{root` fails with the raw end-of-input error
(`io.EOF`) surfaced while reading the tag — before `BeginTagNode` is ever
called — and no partial result is delivered: the builder is left in its
initial state and `Root()` reports that building is not yet done. -/
theorem c8_unterminated_eof :
    ReadSML NodeBuilder NewNodeBuilder "\x7broot".data = (⟨[], false⟩, .error .eof) ∧
    nbRoot ⟨[], false⟩ = .error .notYetDone :=
  ⟨rfl, rfl⟩

theorem splitOnChar_ne_nil (sep : Char) (l : List Char) : splitOnChar sep l ≠ [] := by
  cases l with
  | nil => simp [splitOnChar]
  | cons c rest =>
    unfold splitOnChar
    split_ifs with h
    · simp
    · rcases hs : splitOnChar sep rest with _ | ⟨h1, t1⟩ <;> simp

theorem scanTextSpec_nil (idx : Int) (acc : List Char) :
    scanTextSpec [] idx acc = .error .eof := by
  rw [scanTextSpec.eq_def]

theorem readTextNode_scan {σ : Type} (b : Builder σ) (bs : σ) :
    (l : List Char) → ∀ (idx : Int) (buf : List Char),
      readTextNode b bs idx buf l =
        (match scanTextSpec l idx buf with
         | .ok (t, i, r) =>
           (match b.TextNode bs t with
            | (bs1, none) => (bs1, .ok (i, r))
            | (bs1, some e) => (bs1, .error e))
         | .error e => (bs, .error e))
  | [] => fun idx buf => rfl
  | [c] => fun idx buf => by
    rw [scanTextSpec.eq_def]
    simp only [readTextNode]
    rcases hcl : classifyRune c with _ | _ | _ | _ | _ | _ | _ | _ | _
    case rcOpen =>
      have hc : c = '{' := classify_rcOpen_iff.mp hcl
      subst hc
      simp
    case rcClose =>
      have hc : c = '}' := classify_rcClose_iff.mp hcl
      subst hc
      simp
    case rcEscape =>
      have hc : c = '^' := classify_rcEscape_iff.mp hcl
      subst hc
      simp
    case rcEOF => exact absurd hcl classify_ne_rcEOF
    all_goals {
      have h1 : c ≠ '{' := fun h => by rw [h] at hcl; exact absurd hcl (by decide)
      have h2 : c ≠ '}' := fun h => by rw [h] at hcl; exact absurd hcl (by decide)
      have h3 : c ≠ '^' := fun h => by rw [h] at hcl; exact absurd hcl (by decide)
      simp [h1, h2, h3, readTextNode_scan b bs [] (idx + 1) (buf ++ [c]), scanTextSpec_nil]
    }
  | c :: c2 :: rest2 => fun idx buf => by
    rw [scanTextSpec.eq_def]
    simp only [readTextNode]
    rcases hcl : classifyRune c with _ | _ | _ | _ | _ | _ | _ | _ | _
    case rcOpen =>
      have hc : c = '{' := classify_rcOpen_iff.mp hcl
      subst hc
      simp
    case rcClose =>
      have hc : c = '}' := classify_rcClose_iff.mp hcl
      subst hc
      simp
    case rcEscape =>
      have hc : c = '^' := classify_rcEscape_iff.mp hcl
      subst hc
      rcases hcl2 : classifyRune c2 with _ | _ | _ | _ | _ | _ | _ | _ | _
      case rcOpen =>
        have hc2 : c2 = '{' := classify_rcOpen_iff.mp hcl2
        subst hc2
        simp [readTextNode_scan b bs rest2 (idx + 2) (buf ++ ['{'])]
      case rcClose =>
        have hc2 : c2 = '}' := classify_rcClose_iff.mp hcl2
        subst hc2
        simp [readTextNode_scan b bs rest2 (idx + 2) (buf ++ ['}'])]
      case rcEscape =>
        have hc2 : c2 = '^' := classify_rcEscape_iff.mp hcl2
        subst hc2
        simp [readTextNode_scan b bs rest2 (idx + 2) (buf ++ ['^'])]
      case rcEOF => exact absurd hcl2 classify_ne_rcEOF
      all_goals {
        have h1 : c2 ≠ '{' := fun h => by rw [h] at hcl2; exact absurd hcl2 (by decide)
        have h2 : c2 ≠ '}' := fun h => by rw [h] at hcl2; exact absurd hcl2 (by decide)
        have h3 : c2 ≠ '^' := fun h => by rw [h] at hcl2; exact absurd hcl2 (by decide)
        simp only [hcl2]
        simp [h1, h2, h3]
      }
    case rcEOF => exact absurd hcl classify_ne_rcEOF
    all_goals {
      have h1 : c ≠ '{' := fun h => by rw [h] at hcl; exact absurd hcl (by decide)
      have h2 : c ≠ '}' := fun h => by rw [h] at hcl; exact absurd hcl (by decide)
      have h3 : c ≠ '^' := fun h => by rw [h] at hcl; exact absurd hcl (by decide)
      simp only [hcl]
      simp [h1, h2, h3, readTextNode_scan b bs (c2 :: rest2) (idx + 1) (buf ++ [c])]
    }

/-- The validator as a single equation: reject exactly under `tagRejected`,
otherwise return the colon-split segments. -/
theorem validateTag_spec (s : String) :
    ValidateTag s =
      if tagRejected s then .error (.invalidTag s)
      else .ok ((splitOnChar ':' s.data).map String.mk) := by
  unfold ValidateTag tagRejected
  have hne := splitOnChar_ne_nil ':' s.data
  simp only [List.any_map, Function.comp_def, data_mk]
  split_ifs
  all_goals simp_all
  all_goals aesop

/-- C6 — the tag validator is total and rejects exactly under the claim's
conditions: for every input string it returns the grammar error (carrying
the raw tag) precisely when the colon-split has no segments, has an empty
segment, has a segment starting or ending with a hyphen, or the first
character of the raw string is not a lowercase letter (so `1abc` is
rejected); otherwise it returns the colon-split segments in order. -/
theorem c6_validate_tag_total :
    ∀ s : String,
      ValidateTag s =
        if tagRejected s then .error (.invalidTag s)
        else .ok ((splitOnChar ':' s.data).map String.mk) :=
  fun s => validateTag_spec s

/-- The sixteen rows of `TestTagValidation` from the source's test file,
evaluated on the modelled validator. -/
theorem validateTag_matches_source_tests :
    ValidateTag "-abc" = .error (.invalidTag "-abc") ∧
    ValidateTag "-" = .error (.invalidTag "-") ∧
    ValidateTag "abc-" = .error (.invalidTag "abc-") ∧
    ValidateTag "ab-c" = .ok ["ab-c"] ∧
    ValidateTag "abc" = .ok ["abc"] ∧
    ValidateTag "ab:cd" = .ok ["ab", "cd"] ∧
    ValidateTag "1a" = .error (.invalidTag "1a") ∧
    ValidateTag "a1" = .ok ["a1"] ∧
    ValidateTag "a:1" = .ok ["a", "1"] ∧
    ValidateTag "a-b:c-d" = .ok ["a-b", "c-d"] ∧
    ValidateTag "a-:c-d" = .error (.invalidTag "a-:c-d") ∧
    ValidateTag "-a:c-d" = .error (.invalidTag "-a:c-d") ∧
    ValidateTag "ab:-c" = .error (.invalidTag "ab:-c") ∧
    ValidateTag "ab:c-" = .error (.invalidTag "ab:c-") ∧
    ValidateTag "a-b-1" = .ok ["a-b-1"] ∧
    ValidateTag "a-b-1:c-d-2:e-f-3" = .ok ["a-b-1", "c-d-2", "e-f-3"] :=
  ⟨rfl, rfl, rfl, rfl, rfl, rfl, rfl, rfl, rfl, rfl, rfl, rfl, rfl, rfl, rfl, rfl⟩

/-- C7 — text reading decodes exactly the three escape pairs.  For every
builder, state and input, `readTextNode` behaves as the claim's scanner:
accumulate until an unescaped brace (delivering the buffer to the builder's
`TextNode` with the brace pushed back), decode `^^`, `^\x7b`, `^\x7d` to the
literal character, and fail with the syntax error at the current position
for any other character after `^`.  Consequently `{root ^{hello^}}` parses
to a root with the single text child `{hello}`. -/
theorem c7_text_escape :
    (∀ (σ : Type) (b : Builder σ) (bs : σ) (l : List Char) (idx : Int) (buf : List Char),
      readTextNode b bs idx buf l =
        (match scanTextSpec l idx buf with
         | .ok (t, i, r) =>
           (match b.TextNode bs t with
            | (bs1, none) => (bs1, .ok (i, r))
            | (bs1, some e) => (bs1, .error e))
         | .error e => (bs, .error e))) ∧
    parseSML "\x7broot ^\x7bhello^\x7d\x7d" = .ok (.tag ["root"] [.text "\x7bhello\x7d"]) :=
  ⟨fun _ b bs l idx buf => readTextNode_scan b bs l idx buf, rfl⟩

/-- C2 — amended.  The `NodeBuilder` fully obeys the protocol: every content
event before the first `BeginTagNode` returns a protocol error and every
event after the outermost `EndTagNode` returns the "already done" error.
The `KeyStringValueTreeBuilder` rejects all its events once done — for any
behavior of the external collections package — but before the first
`BeginTagNode` its `TextNode` and `RawNode` dereference the nil stack (a Go
runtime panic rather than a returned protocol error) and its `CommentNode`
silently succeeds. -/
theorem c2_protocol_amended :
    (∀ t, nbTextNode ⟨[], false⟩ t = (⟨[], false⟩, some .noOpeningTagText)) ∧
    (∀ t, nbRawNode ⟨[], false⟩ t = (⟨[], false⟩, some .noOpeningTagRaw)) ∧
    (∀ t, nbCommentNode ⟨[], false⟩ t = (⟨[], false⟩, some .noOpeningTagComment)) ∧
    (∀ st : NodeBuilderState, st.done = true →
      (∀ t, nbBeginTagNode st t = (st, some .buildingDone)) ∧
      nbEndTagNode st = (st, some .buildingDone) ∧
      (∀ t, nbTextNode st t = (st, some .buildingDone)) ∧
      (∀ t, nbRawNode st t = (st, some .buildingDone)) ∧
      (∀ t, nbCommentNode st t = (st, some .buildingDone))) ∧
    (∀ (τ : Type) (ops : KVTreeOps τ) (st : KSVTBState τ), st.done = true →
      (∀ t, ktBeginTagNode ops st t = (st, some .buildingDone)) ∧
      ktEndTagNode st = (st, some .buildingDone) ∧
      (∀ t, ktTextNode ops st t = (st, some .buildingDone)) ∧
      ktCommentNode st = (st, some .buildingDone)) ∧
    (∀ (τ : Type) (ops : KVTreeOps τ) (t : String),
      ktTextNode ops (NewKeyStringValueTreeBuilder τ) t =
        (NewKeyStringValueTreeBuilder τ, some .goPanic) ∧
      (KeyStringValueTreeBuilder ops).RawNode (NewKeyStringValueTreeBuilder τ) t =
        (NewKeyStringValueTreeBuilder τ, some .goPanic)) ∧
    (∀ τ : Type, ktCommentNode (NewKeyStringValueTreeBuilder τ) =
      (NewKeyStringValueTreeBuilder τ, none)) := by
  refine ⟨fun t => rfl, fun t => rfl, fun t => rfl, ?_, ?_,
    fun τ ops t => ⟨rfl, rfl⟩, fun τ => rfl⟩
  · intro st h
    exact ⟨fun t => by simp [nbBeginTagNode, h], by simp [nbEndTagNode, h],
      fun t => by simp [nbTextNode, h], fun t => by simp [nbRawNode, h],
      fun t => by simp [nbCommentNode, h]⟩
  · intro τ ops st h
    exact ⟨fun t => by simp [ktBeginTagNode, h], by simp [ktEndTagNode, h],
      fun t => by simp [ktTextNode, h], by simp [ktCommentNode, h]⟩

/-- Witness for C2 — the done-state rejections evaluated on concrete
builders. -/
theorem c2_protocol_amended_witness :
    nbBeginTagNode ⟨[], true⟩ "x" = (⟨[], true⟩, some .buildingDone) ∧
    ktTextNode (τ := Unit)
      ⟨fun _ => (), fun t _ => (t, none), fun _ _ => .ok "", fun t _ _ => (t, none)⟩
      ⟨some ["a"], some (), true⟩ "x" =
      (⟨some ["a"], some (), true⟩, some .buildingDone) :=
  ⟨(c2_protocol_amended.2.2.2.1 ⟨[], true⟩ rfl).1 "x",
   (c2_protocol_amended.2.2.2.2.1 Unit
      ⟨fun _ => (), fun t _ => (t, none), fun _ _ => .ok "", fun t _ _ => (t, none)⟩
      ⟨some ["a"], some (), true⟩ rfl).2.2.1 "x"⟩

/-- C4 — amended.  The reader passes the accumulated tag string to
`BeginTagNode` unvalidated; validation happens only inside the
`NodeBuilder`'s `BeginTagNode` (through `newTagNode`), so whenever that call
succeeds the tag was accepted by `ValidateTag` and the validated segments
are what the new frame stores. -/
theorem c4_validation_in_nodebuilder :
    ∀ (st : NodeBuilderState) (tag : String) (st' : NodeBuilderState),
      nbBeginTagNode st tag = (st', none) →
      st.done = false ∧ ∃ segs, ValidateTag tag = .ok segs ∧
        st'.stack = ⟨segs, []⟩ :: st.stack ∧ st'.done = false := by
  intro st tag st' h
  unfold nbBeginTagNode at h
  by_cases hd : st.done = true
  · simp [hd] at h
  · have hd' : st.done = false := by simp_all
    rw [if_neg (by simp [hd'])] at h
    rcases hv : ValidateTag tag with e | segs
    · rw [hv] at h
      simp at h
    · rw [hv] at h
      simp only [Prod.mk.injEq] at h
      refine ⟨hd', segs, rfl, ?_, ?_⟩
      · rw [← h.1]
      · rw [← h.1]
        exact hd'

/-- Witness for C4 — a successful `BeginTagNode` on a fresh builder. -/
theorem c4_validation_witness :
    (⟨[], false⟩ : NodeBuilderState).done = false ∧
    ∃ segs, ValidateTag "ab:cd" = .ok segs ∧
      (⟨[⟨["ab", "cd"], []⟩], false⟩ : NodeBuilderState).stack =
        ⟨segs, []⟩ :: (⟨[], false⟩ : NodeBuilderState).stack ∧
      (⟨[⟨["ab", "cd"], []⟩], false⟩ : NodeBuilderState).done = false :=
  c4_validation_in_nodebuilder ⟨[], false⟩ "ab:cd" ⟨[⟨["ab", "cd"], []⟩], false⟩ rfl

/-- C9 — counterexample.  Writing the tree `{root hello}` pretty-printed and
compact and parsing both outputs back yields `"    hello\n"` as the text
child of the pretty parse but `"hello"` for the compact one: the two parses
are not structurally equal. -/
theorem c9_pretty_compact_counterexample :
    writeOutput (Node.tag ["root"] [.text "hello"]) (stdCtx true "    ") =
      .ok "\x7broot\n    hello\n\x7d\n" ∧
    writeOutput (Node.tag ["root"] [.text "hello"]) (stdCtx false "") =
      .ok " \x7broot hello\x7d" ∧
    parseSML "\x7broot\n    hello\n\x7d\n" = .ok (.tag ["root"] [.text "    hello\n"]) ∧
    parseSML " \x7broot hello\x7d" = .ok (.tag ["root"] [.text "hello"]) ∧
    (Node.tag ["root"] [.text "    hello\n"]) ≠ (Node.tag ["root"] [.text "hello"]) :=
  ⟨rfl, rfl, rfl, rfl, by decide⟩

theorem readPreliminary_append {s : List Char} :
    ∀ (l : List Char) (idx i : Int) (r : List Char),
      readPreliminary idx l = .ok (i, r) →
      readPreliminary idx (l ++ s) = .ok (i, r ++ s) := by
  intro l
  induction l with
  | nil =>
    intro idx i r h
    simp [readPreliminary] at h
  | cons c rest ih =>
    intro idx i r h
    rw [readPreliminary.eq_def] at h
    rw [List.cons_append, readPreliminary.eq_def]
    rcases hc : classifyRune c <;> simp only [hc] at h ⊢
    case rcOpen =>
      simp only [Except.ok.injEq, Prod.mk.injEq] at h
      obtain ⟨h1, h2⟩ := h
      subst h1
      subst h2
      rfl
    all_goals exact ih (idx + 1) i r h

theorem readTagAux_append {s : List Char} :
    ∀ (l : List Char) (idx : Int) (buf : List Char) (t : String) (rc : RuneClass)
      (i : Int) (r : List Char),
      readTagAux idx buf l = .ok (t, rc, i, r) →
      readTagAux idx buf (l ++ s) = .ok (t, rc, i, r ++ s) := by
  intro l
  induction l with
  | nil =>
    intro idx buf t rc i r h
    simp [readTagAux] at h
  | cons c rest ih =>
    intro idx buf t rc i r h
    rw [readTagAux.eq_def] at h
    rw [List.cons_append, readTagAux.eq_def]
    rcases hc : classifyRune c <;> simp only [hc] at h ⊢
    case rcTag => exact ih (idx + 1) (buf ++ [c]) t rc i r h
    case rcSpace =>
      simp only [Except.ok.injEq, Prod.mk.injEq] at h
      obtain ⟨h1, h2, h3, h4⟩ := h
      subst h1; subst h2; subst h3; subst h4
      rfl
    case rcClose =>
      simp only [Except.ok.injEq, Prod.mk.injEq] at h
      obtain ⟨h1, h2, h3, h4⟩ := h
      subst h1; subst h2; subst h3; subst h4
      rfl
    all_goals simp at h

theorem scanTextSpec_append {s : List Char} :
    (l : List Char) → ∀ (idx : Int) (acc : List Char) (t : String) (i : Int) (r : List Char),
      scanTextSpec l idx acc = .ok (t, i, r) →
      scanTextSpec (l ++ s) idx acc = .ok (t, i, r ++ s)
  | [] => by
    intro idx acc t i r h
    rw [scanTextSpec_nil] at h
    simp at h
  | c :: rest => by
    intro idx acc t i r h
    rw [scanTextSpec.eq_def] at h
    rw [List.cons_append, scanTextSpec.eq_def]
    dsimp only at h ⊢
    by_cases h1 : c = '{' ∨ c = '}'
    · rw [if_pos h1] at h
      rw [if_pos h1]
      simp only [Except.ok.injEq, Prod.mk.injEq] at h
      obtain ⟨ht, hi, hr⟩ := h
      subst ht; subst hi; subst hr
      rfl
    · rw [if_neg h1] at h
      rw [if_neg h1]
      by_cases h2 : c = '^'
      · rw [if_pos h2] at h
        rw [if_pos h2]
        cases rest with
        | nil => simp at h
        | cons c2 rest2 =>
          rw [List.cons_append]
          dsimp only at h ⊢
          by_cases h3 : c2 = '^' ∨ c2 = '{' ∨ c2 = '}'
          · rw [if_pos h3] at h
            rw [if_pos h3]
            exact scanTextSpec_append rest2 (idx + 2) (acc ++ [c2]) t i r h
          · rw [if_neg h3] at h
            simp at h
      · rw [if_neg h2] at h
        rw [if_neg h2]
        exact scanTextSpec_append rest (idx + 1) (acc ++ [c]) t i r h

theorem readTextNode_append {σ : Type} (b : Builder σ) {s : List Char} :
    ∀ (l : List Char) (bs : σ) (idx : Int) (buf : List Char) (bs1 : σ) (i : Int) (r : List Char),
      readTextNode b bs idx buf l = (bs1, .ok (i, r)) →
      readTextNode b bs idx buf (l ++ s) = (bs1, .ok (i, r ++ s)) := by
  intro l bs idx buf bs1 i r h
  rw [readTextNode_scan b bs l idx buf] at h
  rw [readTextNode_scan b bs (l ++ s) idx buf]
  rcases hs : scanTextSpec l idx buf with e | ⟨t, i0, r0⟩
  · rw [hs] at h
    simp at h
  · rw [hs] at h
    rw [scanTextSpec_append l idx buf t i0 r0 hs]
    dsimp only at h ⊢
    rcases hb : b.TextNode bs t with ⟨bs2, e2⟩
    rcases e2 with _ | e2
    · rw [hb] at h
      dsimp only at h ⊢
      simp only [Prod.mk.injEq, Except.ok.injEq] at h
      obtain ⟨hb1, hi, hr⟩ := h
      subst hb1; subst hi; subst hr
      rfl
    · rw [hb] at h
      dsimp only at h
      simp at h



theorem readRawNode_append {σ : Type} (b : Builder σ) {s : List Char} :
    (l : List Char) → ∀ (bs : σ) (idx : Int) (buf : List Char) (bs1 : σ) (i : Int) (r : List Char),
      readRawNode b bs idx buf l = (bs1, .ok (i, r)) →
      readRawNode b bs idx buf (l ++ s) = (bs1, .ok (i, r ++ s))
  | [] => by
    intro bs idx buf bs1 i r h
    simp [readRawNode] at h
  | [c] => by
    intro bs idx buf bs1 i r h
    simp only [readRawNode] at h
    rcases hc : classifyRune c <;> (try rw [hc] at h) <;> (try dsimp only at h) <;>
      simp [readRawNode] at h
  | c :: c2 :: rest2 => by
    intro bs idx buf bs1 i r h
    simp only [readRawNode] at h
    rw [List.cons_append, List.cons_append]
    simp only [readRawNode]
    rcases hc : classifyRune c <;> (try rw [hc] at h) <;> (try dsimp only at h ⊢)
    case rcExclamation =>
      rcases hc2 : classifyRune c2 <;> (try rw [hc2] at h) <;> (try dsimp only at h ⊢)
      case rcClose =>
        rcases hb : b.RawNode bs (String.mk buf) with ⟨bs2, e2⟩
        rcases e2 with _ | e2
        · rw [hb] at h
          dsimp only at h ⊢
          simp only [Prod.mk.injEq, Except.ok.injEq] at h
          obtain ⟨hb1, hi, hr⟩ := h
          subst hb1; subst hi; subst hr
          rfl
        · rw [hb] at h
          dsimp only at h
          simp at h
      all_goals exact readRawNode_append b rest2 bs (idx + 2) (buf ++ ['!', c2]) bs1 i r h
    all_goals exact readRawNode_append b (c2 :: rest2) bs (idx + 1) (buf ++ [c]) bs1 i r h



theorem readCommentNode_append {σ : Type} (b : Builder σ) {s : List Char} :
    (l : List Char) → ∀ (bs : σ) (idx : Int) (buf : List Char) (bs1 : σ) (i : Int) (r : List Char),
      readCommentNode b bs idx buf l = (bs1, .ok (i, r)) →
      readCommentNode b bs idx buf (l ++ s) = (bs1, .ok (i, r ++ s))
  | [] => by
    intro bs idx buf bs1 i r h
    simp [readCommentNode] at h
  | [c] => by
    intro bs idx buf bs1 i r h
    simp only [readCommentNode] at h
    rcases hc : classifyRune c <;> (try rw [hc] at h) <;> (try dsimp only at h) <;>
      simp [readCommentNode] at h
  | c :: c2 :: rest2 => by
    intro bs idx buf bs1 i r h
    simp only [readCommentNode] at h
    rw [List.cons_append, List.cons_append]
    simp only [readCommentNode]
    rcases hc : classifyRune c <;> (try rw [hc] at h) <;> (try dsimp only at h ⊢)
    case rcHash =>
      rcases hc2 : classifyRune c2 <;> (try rw [hc2] at h) <;> (try dsimp only at h ⊢)
      case rcClose =>
        rcases hb : b.CommentNode bs (String.mk buf) with ⟨bs2, e2⟩
        rcases e2 with _ | e2
        · rw [hb] at h
          dsimp only at h ⊢
          simp only [Prod.mk.injEq, Except.ok.injEq] at h
          obtain ⟨hb1, hi, hr⟩ := h
          subst hb1; subst hi; subst hr
          rfl
        · rw [hb] at h
          dsimp only at h
          simp at h
      all_goals exact readCommentNode_append b rest2 bs (idx + 2) (buf ++ ['#', c2]) bs1 i r h
    all_goals exact readCommentNode_append b (c2 :: rest2) bs (idx + 1) (buf ++ [c]) bs1 i r h

theorem readTag_append {s : List Char} (l : List Char) (idx : Int) (t : String)
    (rc : RuneClass) (i : Int) (r : List Char) (h : readTag idx l = .ok (t, rc, i, r)) :
    readTag idx (l ++ s) = .ok (t, rc, i, r ++ s) :=
  readTagAux_append l idx [] t rc i r h



mutual

theorem readTagNode_append {σ : Type} (b : Builder σ) {s : List Char} :
    (fuel : Nat) → ∀ (bs : σ) (idx : Int) (l : List Char) (bs1 : σ) (i : Int) (r : List Char),
      readTagNode b fuel bs idx l = (bs1, .ok (i, r)) →
      readTagNode b fuel bs idx (l ++ s) = (bs1, .ok (i, r ++ s))
  | 0 => by
    intro bs idx l bs1 i r h
    simp [readTagNode] at h
  | fuel + 1 => by
    intro bs idx l bs1 i r h
    rw [readTagNode.eq_def] at h
    rw [readTagNode.eq_def]
    dsimp only at h ⊢
    rcases ht : readTag idx l with e | ⟨tag, rc, idx1, l1⟩
    · rw [ht] at h
      dsimp only at h
      simp at h
    · rw [ht] at h
      rw [readTag_append l idx tag rc idx1 l1 ht]
      dsimp only at h ⊢
      rcases hb : b.BeginTagNode bs tag with ⟨bsB, e1⟩
      rcases e1 with _ | e1
      · (try rw [hb] at h)
        dsimp only at h ⊢
        by_cases hrc : rc = RuneClass.rcClose
        · rw [if_pos hrc] at h
          rw [if_pos hrc]
          dsimp only at h ⊢
          rcases he : b.EndTagNode bsB with ⟨bs3, e3⟩
          rcases e3 with _ | e3
          · (try rw [he] at h)
            dsimp only at h ⊢
            simp only [Prod.mk.injEq, Except.ok.injEq] at h
            obtain ⟨h1, h2, h3⟩ := h
            subst h1; subst h2; subst h3
            rfl
          · (try rw [he] at h)
            (try dsimp only at h)
            simp at h
        · rw [if_neg hrc] at h
          rw [if_neg hrc]
          rcases hch : readTagChildren b fuel bsB idx1 l1 with ⟨bs2, res2⟩
          rcases res2 with e2 | ⟨idx2, l2⟩
          · rw [hch] at h
            dsimp only at h
            simp at h
          · rw [hch] at h
            rw [readTagChildren_append b fuel bsB idx1 l1 bs2 idx2 l2 hch]
            dsimp only at h ⊢
            rcases he : b.EndTagNode bs2 with ⟨bs3, e3⟩
            rcases e3 with _ | e3
            · (try rw [he] at h)
              dsimp only at h ⊢
              simp only [Prod.mk.injEq, Except.ok.injEq] at h
              obtain ⟨h1, h2, h3⟩ := h
              subst h1; subst h2; subst h3
              rfl
            · (try rw [he] at h)
              (try dsimp only at h)
              simp at h
      · (try rw [hb] at h)
        (try dsimp only at h)
        simp at h

theorem readTagChildren_append {σ : Type} (b : Builder σ) {s : List Char} :
    (fuel : Nat) → ∀ (bs : σ) (idx : Int) (l : List Char) (bs1 : σ) (i : Int) (r : List Char),
      readTagChildren b fuel bs idx l = (bs1, .ok (i, r)) →
      readTagChildren b fuel bs idx (l ++ s) = (bs1, .ok (i, r ++ s))
  | 0 => by
    intro bs idx l bs1 i r h
    simp [readTagChildren] at h
  | fuel + 1 => by
    intro bs idx l bs1 i r h
    rw [readTagChildren.eq_def] at h
    rw [readTagChildren.eq_def]
    dsimp only at h ⊢
    cases l with
    | nil => simp at h
    | cons c rest =>
      rw [List.cons_append]
      dsimp only at h ⊢
      rcases hc : classifyRune c <;> (try rw [hc] at h) <;> (try dsimp only at h ⊢)
      case rcClose =>
        simp only [Prod.mk.injEq, Except.ok.injEq] at h
        obtain ⟨h1, h2, h3⟩ := h
        subst h1; subst h2; subst h3
        rfl
      case rcOpen =>
        rcases hbr : readBracedContent b fuel bs (idx + 1) rest with ⟨bsX, resX⟩
        rcases resX with eX | ⟨idxX, lX⟩
        · rw [hbr] at h
          dsimp only at h
          simp at h
        · rw [hbr] at h
          rw [readBracedContent_append b fuel bs (idx + 1) rest bsX idxX lX hbr]
          dsimp only at h ⊢
          exact readTagChildren_append b fuel bsX idxX lX bs1 i r h
      all_goals {
        rcases htx : readTextNode b bs idx [] (c :: rest) with ⟨bsX, resX⟩
        rcases resX with eX | ⟨idxX, lX⟩
        · rw [htx] at h
          dsimp only at h
          simp at h
        · rw [htx] at h
          have h2 := readTextNode_append (s := s) b (c :: rest) bs idx [] bsX idxX lX htx
          rw [List.cons_append] at h2
          rw [h2]
          dsimp only at h ⊢
          exact readTagChildren_append b fuel bsX idxX lX bs1 i r h
      }

theorem readBracedContent_append {σ : Type} (b : Builder σ) {s : List Char} :
    (fuel : Nat) → ∀ (bs : σ) (idx : Int) (l : List Char) (bs1 : σ) (i : Int) (r : List Char),
      readBracedContent b fuel bs idx l = (bs1, .ok (i, r)) →
      readBracedContent b fuel bs idx (l ++ s) = (bs1, .ok (i, r ++ s))
  | 0 => by
    intro bs idx l bs1 i r h
    simp [readBracedContent] at h
  | fuel + 1 => by
    intro bs idx l bs1 i r h
    rw [readBracedContent.eq_def] at h
    rw [readBracedContent.eq_def]
    dsimp only at h ⊢
    cases l with
    | nil => simp at h
    | cons c rest =>
      rw [List.cons_append]
      dsimp only at h ⊢
      rcases hc : classifyRune c <;> (try rw [hc] at h) <;> (try dsimp only at h ⊢)
      case rcTag =>
        have h2 := readTagNode_append (s := s) b fuel bs idx (c :: rest) bs1 i r h
        rw [List.cons_append] at h2
        exact h2
      case rcExclamation =>
        exact readRawNode_append b rest bs (idx + 1) [] bs1 i r h
      case rcHash =>
        exact readCommentNode_append b rest bs (idx + 1) [] bs1 i r h
      all_goals simp at h

end



mutual

theorem readTagNode_mono {σ : Type} (b : Builder σ) :
    (fuel : Nat) → ∀ (bs : σ) (idx : Int) (l : List Char) (bs1 : σ) (res : Int × List Char),
      readTagNode b fuel bs idx l = (bs1, .ok res) →
      readTagNode b (fuel + 1) bs idx l = (bs1, .ok res)
  | 0 => by
    intro bs idx l bs1 res h
    simp [readTagNode] at h
  | fuel + 1 => by
    intro bs idx l bs1 res h
    rw [readTagNode.eq_def] at h
    rw [readTagNode.eq_def]
    dsimp only at h ⊢
    rcases ht : readTag idx l with e | ⟨tag, rc, idx1, l1⟩
    · rw [ht] at h
      dsimp only at h
      simp at h
    · (try rw [ht] at h)
      (try dsimp only at h ⊢)
      rcases hb : b.BeginTagNode bs tag with ⟨bsB, e1⟩
      rcases e1 with _ | e1
      · (try rw [hb] at h)
        dsimp only at h ⊢
        by_cases hrc : rc = RuneClass.rcClose
        · rw [if_pos hrc] at h
          rw [if_pos hrc]
          dsimp only at h ⊢
          exact h
        · rw [if_neg hrc] at h
          rw [if_neg hrc]
          rcases hch : readTagChildren b fuel bsB idx1 l1 with ⟨bs2, res2⟩
          rcases res2 with e2 | res2
          · rw [hch] at h
            dsimp only at h
            simp at h
          · rw [hch] at h
            rw [readTagChildren_mono b fuel bsB idx1 l1 bs2 res2 hch]
            dsimp only at h ⊢
            exact h
      · (try rw [hb] at h)
        (try dsimp only at h)
        simp at h

theorem readTagChildren_mono {σ : Type} (b : Builder σ) :
    (fuel : Nat) → ∀ (bs : σ) (idx : Int) (l : List Char) (bs1 : σ) (res : Int × List Char),
      readTagChildren b fuel bs idx l = (bs1, .ok res) →
      readTagChildren b (fuel + 1) bs idx l = (bs1, .ok res)
  | 0 => by
    intro bs idx l bs1 res h
    simp [readTagChildren] at h
  | fuel + 1 => by
    intro bs idx l bs1 res h
    rw [readTagChildren.eq_def] at h
    rw [readTagChildren.eq_def]
    dsimp only at h ⊢
    cases l with
    | nil => simp at h
    | cons c rest =>
      dsimp only at h ⊢
      rcases hc : classifyRune c <;> (try rw [hc] at h) <;> (try dsimp only at h ⊢)
      case rcClose => exact h
      case rcOpen =>
        rcases hbr : readBracedContent b fuel bs (idx + 1) rest with ⟨bsX, resX⟩
        rcases resX with eX | resX
        · rw [hbr] at h
          dsimp only at h
          simp at h
        · rw [hbr] at h
          rw [readBracedContent_mono b fuel bs (idx + 1) rest bsX resX hbr]
          dsimp only at h ⊢
          exact readTagChildren_mono b fuel bsX resX.1 resX.2 bs1 res h
      all_goals {
        rcases htx : readTextNode b bs idx [] (c :: rest) with ⟨bsX, resX⟩
        rcases resX with eX | resX
        · rw [htx] at h
          dsimp only at h
          simp at h
        · rw [htx] at h
          dsimp only at h ⊢
          exact readTagChildren_mono b fuel bsX resX.1 resX.2 bs1 res h
      }

theorem readBracedContent_mono {σ : Type} (b : Builder σ) :
    (fuel : Nat) → ∀ (bs : σ) (idx : Int) (l : List Char) (bs1 : σ) (res : Int × List Char),
      readBracedContent b fuel bs idx l = (bs1, .ok res) →
      readBracedContent b (fuel + 1) bs idx l = (bs1, .ok res)
  | 0 => by
    intro bs idx l bs1 res h
    simp [readBracedContent] at h
  | fuel + 1 => by
    intro bs idx l bs1 res h
    rw [readBracedContent.eq_def] at h
    rw [readBracedContent.eq_def]
    dsimp only at h ⊢
    cases l with
    | nil => simp at h
    | cons c rest =>
      dsimp only at h ⊢
      rcases hc : classifyRune c <;> (try rw [hc] at h) <;> (try dsimp only at h ⊢)
      case rcTag => exact readTagNode_mono b fuel bs idx (c :: rest) bs1 res h
      case rcExclamation => exact h
      case rcHash => exact h
      all_goals simp at h

end



theorem readTagNode_mono_le {σ : Type} (b : Builder σ) {fuel fuel' : Nat}
    (hle : fuel ≤ fuel') (bs : σ) (idx : Int) (l : List Char) (bs1 : σ)
    (res : Int × List Char) (h : readTagNode b fuel bs idx l = (bs1, .ok res)) :
    readTagNode b fuel' bs idx l = (bs1, .ok res) := by
  induction hle with
  | refl => exact h
  | step hle ih => exact readTagNode_mono b _ bs idx l bs1 res ih

/-- C10 — for every builder, any input that parses successfully consuming
exactly the whole input can be extended by arbitrary trailing characters:
the parse returns the identical builder state and index, with the trailing
characters untouched as the remaining input — they are never read and can
never cause an error. -/
theorem c10_trailing_ignored :
    ∀ (σ : Type) (b : Builder σ) (bs : σ) (p junk : List Char) (bs1 : σ) (i : Int),
      ReadSML b bs p = (bs1, .ok (i, [])) →
      ReadSML b bs (p ++ junk) = (bs1, .ok (i, junk)) := by
  intro σ b bs p junk bs1 i h
  unfold ReadSML at h ⊢
  rcases hp : readPreliminary (-1) p with e | ⟨idx, p1⟩
  · rw [hp] at h
    simp at h
  · rw [hp] at h
    rw [readPreliminary_append p (-1) idx p1 hp]
    have h2 := readTagNode_append (s := junk) b (smlFuel p) bs idx p1 bs1 i [] h
    simp only [List.nil_append] at h2
    refine readTagNode_mono_le b ?_ bs idx (p1 ++ junk) bs1 (i, junk) h2
    unfold smlFuel
    simp only [List.length_append]
    omega

/-- Witness for C10 — `{a}` followed by the malformed `}}!`. -/
theorem c10_trailing_ignored_witness :
    ReadSML NodeBuilder NewNodeBuilder (" \x7ba\x7d".data ++ "\x7d\x7d!".data) =
      (⟨[⟨["a"], []⟩], true⟩, .ok (3, "\x7d\x7d!".data)) :=
  c10_trailing_ignored NodeBuilderState NodeBuilder NewNodeBuilder
    " \x7ba\x7d".data "\x7d\x7d!".data ⟨[⟨["a"], []⟩], true⟩ 3 rfl

end SML
